import Mathlib

/-!
Verification of the event-extraction pipeline of `extractEvents.py`
(repository `ehcheng/vestaboard`).

The Python source is shallowly embedded as follows.

* A `pytz` timezone attached to a datetime is modelled as its fixed UTC
  offset in microseconds (`off`).  An aware `datetime` is modelled by the
  instant it denotes (`utc`, microseconds since the Unix epoch) together
  with the offset of its attached timezone; its wall-clock fields are
  derived (`wall`, `dateOf`, `timeOfDay`).  Microsecond resolution is the
  resolution of Python `datetime`, so `time.min` is 0 microseconds into a
  day and `time.max` is 86399999999 microseconds into a day.
* A value `DTSTART.dt` / `DTEND.dt` handed over by `recurring_ical_events`
  is either a bare `date` (modelled as an epoch day number) or a
  `datetime`, the latter either timezone-aware or naive.  Per RFC 5545 the
  start and end of one event carry the same value type, so a raw
  occurrence is either all-day (`date` start, optional `date` end) or
  timed (`datetime` start, optional `datetime` end).
* `datetime.astimezone` keeps the denoted instant and swaps the attached
  timezone; on a naive datetime Python interprets the wall clock in the
  process-local timezone, whose offset is the `localOff` parameter.
* The per-file body of `extract_recurring_events_ics` (lines 81-157) is
  modelled by `extractLoop`.  Reading and parsing a file (lines 82-86)
  happen **before** the `try` block, so a failure there propagates and
  aborts the run (`FileModel.parseFail`).  The local `filtered_events` is
  initialised at line 105 **inside** the `try`, while
  `all_events.extend(filtered_events)` at line 157 sits after the
  `finally`; an exception raised after the alarm is armed but before line
  105 runs (for example a timeout or RRULE error inside
  `recurring_ical_events.of(cal).after(...)` at line 100) therefore leaves
  `filtered_events` bound to the previous file value, or unbound on the
  first file (`FileModel.earlyFail`).  An exception that fires mid-loop
  after `k` events were appended leaves the first `k` events
  (`FileModel.query raws (some k)`).
* The OpenAI call inside `summarize_with_gpt` is an external collaborator
  and is modelled as an oracle `gpt : String → Nat → Option String`
  returning `none` when the call raises and `some s` when it returns the
  stripped completion text `s`.
* Python string slicing `s[:n]` for `n : Nat` is `pyTrunc`, `str.upper`
  is `pyUpper`, and `list.sort()` on strings is `List.mergeSort` with the
  lexicographic order on `String` (Python sorts `str` by code point;
  both sorts are stable).
-/

/-- Microseconds per civil day. -/
def usPerDay : Int := 86400000000

/-- Microseconds per hour. -/
def usPerHour : Int := 3600000000

/-- Microseconds per minute. -/
def usPerMinute : Int := 60000000

/-- Python `time.min` as microseconds into the day. -/
def timeMin : Int := 0

/-- Python `time.max` (23:59:59.999999) as microseconds into the day. -/
def timeMax : Int := usPerDay - 1

/-- The UTC offset of `pytz.UTC`. -/
def utcOffset : Int := 0

/-- A timezone-aware Python `datetime`: the instant it denotes
(microseconds since the Unix epoch) plus the fixed UTC offset of the
attached timezone (microseconds). -/
structure TzDatetime where
  utc : Int
  off : Int
deriving DecidableEq

/-- The wall-clock reading of an aware datetime, as microseconds since the
epoch in its own timezone. -/
def TzDatetime.wall (t : TzDatetime) : Int := t.utc + t.off

/-- Python `datetime.date()`: the epoch day number of the wall clock. -/
def TzDatetime.dateOf (t : TzDatetime) : Int := t.wall / usPerDay

/-- Python `datetime.time()`: microseconds since local midnight. -/
def TzDatetime.timeOfDay (t : TzDatetime) : Int := t.wall % usPerDay

/-- A raw `datetime` as delivered by `recurring_ical_events`, either
timezone-aware or naive. -/
inductive RawDT where
  | aware (utc off : Int)
  | naive (wall : Int)
deriving DecidableEq

/-- Python `datetime.astimezone(target)`: an aware datetime keeps its
instant and swaps the timezone; a naive datetime is interpreted in the
process-local timezone (offset `localOff`) first. -/
def RawDT.astimezone (localOff targetOff : Int) : RawDT → TzDatetime
  | .aware utc _ => ⟨utc, targetOff⟩
  | .naive wall => ⟨wall - localOff, targetOff⟩

/-- The instant a raw datetime denotes, with naive wall clocks interpreted
in the process-local timezone. -/
def RawDT.instant (localOff : Int) : RawDT → Int
  | .aware utc _ => utc
  | .naive wall => wall - localOff

/-- The start/end payload of one raw occurrence; all-day occurrences carry
bare dates (epoch day numbers), timed ones carry datetimes.  `none` means
the event has no `DTEND`. -/
inductive RawOcc where
  | allDay (startD : Int) (endD : Option Int)
  | timed (startT : RawDT) (endT : Option RawDT)
deriving DecidableEq

/-- One raw occurrence produced by `recurring_ical_events.of(cal).after(d)`:
the optional `SUMMARY` and `LOCATION` properties, whether the source event
carried an `RRULE`, and the start/end payload. -/
structure RawEvent where
  summary : Option String
  location : Option String
  rrule : Bool
  occ : RawOcc
deriving DecidableEq

/-- The dict appended to `filtered_events` (lines 139-145 of
`extractEvents.py`). -/
structure ExtractedEvent where
  title : String
  location : String
  start_time : TzDatetime
  end_time : TzDatetime
  is_recurring : Bool
deriving DecidableEq

/-- Lines 111-131 of `extractEvents.py`: default the end to the start,
convert datetimes into the target timezone, and widen bare dates to the
very beginning / very end of the day stamped with `pytz.UTC`. -/
def normalizeOcc (localOff targetOff : Int) : RawOcc → TzDatetime × TzDatetime
  | .timed st en =>
      (st.astimezone localOff targetOff, ((en.getD st).astimezone localOff targetOff))
  | .allDay sd ed =>
      (⟨sd * usPerDay + timeMin, utcOffset⟩, ⟨(ed.getD sd) * usPerDay + timeMax, utcOffset⟩)

/-- The event record built by one loop iteration (lines 111-145):
normalized times plus the title default `"No Title"` and location default
`""`. -/
def mkEvent (localOff targetOff : Int) (r : RawEvent) : ExtractedEvent :=
  let n := normalizeOcc localOff targetOff r.occ
  { title := r.summary.getD "No Title"
    location := r.location.getD ""
    start_time := n.1
    end_time := n.2
    is_recurring := r.rrule }

/-- The `for event in query` loop (lines 107-145): normalize each raw
occurrence in order, `break` as soon as a normalized start date exceeds
`end_date`, otherwise append the event record. -/
def expandLoop (localOff targetOff endDate : Int) : List RawEvent → List ExtractedEvent
  | [] => []
  | r :: rs =>
      let ev := mkEvent localOff targetOff r
      if ev.start_time.dateOf > endDate then []
      else ev :: expandLoop localOff targetOff endDate rs

/-- The exceptions the script can die with: an uncaught read/parse failure
at lines 82-86, the uncaught `NameError` at line 157 when
`filtered_events` was never bound, and the uncaught `ValueError` from
`datetime.strptime` on a malformed date argument. -/
inductive PyError where
  | parseError
  | nameError
  | valueError
deriving DecidableEq

/-- Observable behaviour of processing one input file:
`parseFail` - reading or `icalendar.Calendar.from_ical` raises (lines
82-86, outside the `try`); `earlyFail` - an exception (timeout included)
fires after `signal.alarm(5)` but before `filtered_events = []` at line
105; `query raws failAfter` - the loop runs over `raws`, either to
completion (`none`) or until an exception fires after `k` appends
(`some k`).  In every case the `finally` at line 155 disarms the alarm. -/
inductive FileModel where
  | parseFail
  | earlyFail
  | query (raws : List RawEvent) (failAfter : Option Nat)
deriving DecidableEq

/-- The part of the raw occurrence sequence the loop actually consumed:
all of it on normal completion, the first `k` elements when an exception
fired after `k` appends. -/
def consumedPrefix (raws : List RawEvent) : Option Nat → List RawEvent
  | some k => raws.take k
  | none => raws

/-- The per-file loop of `extract_recurring_events_ics` (lines 81-157).
`allEvents` is the accumulator `all_events`; `fvar` is the current binding
of the local variable `filtered_events` (`none` before its first
assignment).  `parseFail` propagates out of the loop; `earlyFail` is
caught, but line 157 then extends `all_events` with the stale binding of
`filtered_events`, raising `NameError` when there is none. -/
def extractLoop (localOff targetOff endDate : Int) :
    List FileModel → List ExtractedEvent → Option (List ExtractedEvent) →
      Except PyError (List ExtractedEvent)
  | [], allEvents, _ => .ok allEvents
  | f :: fs, allEvents, fvar =>
      match f with
      | .parseFail => .error .parseError
      | .earlyFail =>
          match fvar with
          | none => .error .nameError
          | some stale =>
              extractLoop localOff targetOff endDate fs (allEvents ++ stale) (some stale)
      | .query raws failAfter =>
          let evs := expandLoop localOff targetOff endDate (consumedPrefix raws failAfter)
          extractLoop localOff targetOff endDate fs (allEvents ++ evs) (some evs)

/-- `extract_recurring_events_ics` (lines 71-162): fold the per-file loop
over the input files starting from an empty accumulator and an unbound
`filtered_events`. -/
def extract_recurring_events_ics (localOff targetOff endDate : Int)
    (files : List FileModel) : Except PyError (List ExtractedEvent) :=
  extractLoop localOff targetOff endDate files [] none

/-- The numeric value of a decimal digit character. -/
def digitVal (c : Char) : Nat := c.toNat - 48

/-- Gregorian leap-year test, as used by Python `datetime.strptime` when
validating a day of month. -/
def isLeapYear (y : Nat) : Bool := (y % 4 == 0 && y % 100 != 0) || y % 400 == 0

/-- Days in a month of the proleptic Gregorian calendar. -/
def daysInMonth (y m : Nat) : Nat :=
  if m = 2 then (if isLeapYear y then 29 else 28)
  else if m = 4 ∨ m = 6 ∨ m = 9 ∨ m = 11 then 30 else 31

/-- `datetime.strptime(s, "%Y-%m-%d").date()` on a canonical ten-character
`YYYY-MM-DD` string: four digits, dash, two digits, dash, two digits, with
a valid month and day of month.  `none` models the raised `ValueError`. -/
def parseYMD (s : String) : Option (Nat × Nat × Nat) :=
  match s.data with
  | [y1, y2, y3, y4, h1, m1, m2, h2, d1, d2] =>
      if y1.isDigit && y2.isDigit && y3.isDigit && y4.isDigit && (h1 == '-') &&
         m1.isDigit && m2.isDigit && (h2 == '-') && d1.isDigit && d2.isDigit then
        let y := ((digitVal y1 * 10 + digitVal y2) * 10 + digitVal y3) * 10 + digitVal y4
        let m := digitVal m1 * 10 + digitVal m2
        let d := digitVal d1 * 10 + digitVal d2
        if 1 ≤ m ∧ m ≤ 12 ∧ 1 ≤ d ∧ d ≤ daysInMonth y m then some (y, m, d) else none
      else none
  | _ => none

/-- The epoch day number of a Gregorian calendar date (standard
days-from-civil computation), so that a parsed filter date can be compared
with `TzDatetime.dateOf`. -/
def toDayNumber (y m d : Nat) : Int :=
  let yi : Int := if m ≤ 2 then (y : Int) - 1 else (y : Int)
  let era : Int := yi / 400
  let yoe : Int := yi - era * 400
  let mp : Int := ((m : Int) + 9) % 12
  let doy : Int := (153 * mp + 2) / 5 + (d : Int) - 1
  let doe : Int := yoe * 365 + yoe / 4 - yoe / 100 + doy
  era * 146097 + doe - 719468

/-- `filter_events_by_date` (lines 164-181): parse the filter date (an
uncaught `ValueError` on a malformed string) and keep exactly the events
whose normalized start date equals it. -/
def filter_events_by_date (events : List ExtractedEvent) (filterDate : String) :
    Except PyError (List ExtractedEvent) :=
  match parseYMD filterDate with
  | none => .error .valueError
  | some (y, m, d) =>
      .ok (events.filter (fun e => e.start_time.dateOf == toDayNumber y m d))

/-- Lines 266-267 of the `__main__` block: the whole extraction pass over
every input file runs first, and only then is the date argument parsed by
`filter_events_by_date`.  The later artifact-writing steps do not touch
the date argument again before this point and are not needed by any
claim. -/
def mainScript (localOff targetOff endDate : Int) (files : List FileModel)
    (dateStr : String) : Except PyError (List ExtractedEvent) :=
  match extract_recurring_events_ics localOff targetOff endDate files with
  | .error e => .error e
  | .ok evs => filter_events_by_date evs dateStr

/-- Python `s[:n]` for a natural `n`: the first `n` characters. -/
def pyTrunc (s : String) (n : Nat) : String := ⟨s.data.take n⟩

/-- `summarize_with_gpt` (lines 183-215) with the OpenAI call abstracted
as the oracle `gpt` (`none` models any raised exception): on success the
stripped completion is truncated to `maxLength` characters; on any failure
the raw title is truncated instead. -/
def summarize_with_gpt (gpt : String → Nat → Option String) (title : String)
    (maxLength : Nat) : String :=
  match gpt title maxLength with
  | some summary => pyTrunc summary maxLength
  | none => pyTrunc title maxLength

/-- A natural number printed as two zero-padded decimal digits, as
`strftime` does for `%H`, `%M` and `%d`. -/
def pad2 (n : Nat) : String := ⟨[Nat.digitChar (n / 10), Nat.digitChar (n % 10)]⟩

/-- `datetime.strftime("%H:%M")`: the zero-padded 24-hour wall-clock hour
and minute. -/
def strfHM (t : TzDatetime) : String :=
  pad2 ((t.timeOfDay / usPerHour).toNat) ++ ":" ++
    pad2 (((t.timeOfDay % usPerHour) / usPerMinute).toNat)

/-- The classification loop of `format_events_for_text_file` (lines
218-229), returning (all-day renderings, timed renderings) in input
order: an event goes to the all-day group exactly when its start time of
day is `time.min` and its end time of day is `time.max`; otherwise it is
rendered with its zero-padded `HH:MM` prefix. -/
def fmtPartition (gpt : String → Nat → Option String) :
    List ExtractedEvent → List String × List String
  | [] => ([], [])
  | e :: es =>
      let rest := fmtPartition gpt es
      if e.start_time.timeOfDay = timeMin ∧ e.end_time.timeOfDay = timeMax then
        (summarize_with_gpt gpt e.title 22 :: rest.1, rest.2)
      else
        (rest.1, (strfHM e.start_time ++ " " ++ summarize_with_gpt gpt e.title 16) :: rest.2)

/-- Python string comparison (lexicographic by code point) as the Boolean
relation handed to the sort. -/
def strLeB (a b : String) : Bool := decide (a ≤ b)

/-- `strftime("%B")`: the full English month name. -/
def monthName : Nat → String
  | 1 => "January"
  | 2 => "February"
  | 3 => "March"
  | 4 => "April"
  | 5 => "May"
  | 6 => "June"
  | 7 => "July"
  | 8 => "August"
  | 9 => "September"
  | 10 => "October"
  | 11 => "November"
  | 12 => "December"
  | _ => ""

/-- Python `str.upper()` on the ASCII strings produced here. -/
def pyUpper (s : String) : String := ⟨s.data.map Char.toUpper⟩

/-- `format_events_for_text_file` (lines 217-243): classify, sort each
group lexicographically, concatenate timed entries before all-day
entries, and prepend the upper-cased `"--- <Month DD> ---"` header built
from the parsed filter date (whose `strptime` raises, modelled `none`, on
a malformed string). -/
def format_events_for_text_file (gpt : String → Nat → Option String)
    (events : List ExtractedEvent) (filterDate : String) : Option String :=
  match parseYMD filterDate with
  | none => none
  | some (_, m, d) =>
      let p := fmtPartition gpt events
      let allDaySorted := p.1.mergeSort strLeB
      let timedSorted := p.2.mergeSort strLeB
      let formatted := timedSorted ++ allDaySorted
      let dateHeader := pyUpper (monthName m ++ " " ++ pad2 d)
      some ("--- " ++ dateHeader ++ " ---\n" ++ String.intercalate "\n" formatted)

/-- Reads the chronological key back off a rendered timed entry: the
minute of day encoded by its zero-padded `"HH:MM "` prefix. -/
def minutesOfRendered (s : String) : Nat :=
  match s.data with
  | c1 :: c2 :: _ :: c4 :: c5 :: _ =>
      (digitVal c1 * 10 + digitVal c2) * 60 + (digitVal c4 * 10 + digitVal c5)
  | _ => 0

/-- The minute of day of the wall-clock start instant, the chronological
key the digest is supposed to be ordered by. -/
def startMinutes (t : TzDatetime) : Nat :=
  (t.timeOfDay / usPerHour).toNat * 60 + ((t.timeOfDay % usPerHour) / usPerMinute).toNat

/-- The spec invariant on a raw occurrence: its end does not precede its
start (with naive wall clocks read in the process-local timezone).  RFC
5545 requires this of well-formed calendar data; the code never checks
it. -/
def rawOrdered (localOff : Int) : RawOcc → Prop
  | .allDay sd ed => sd ≤ ed.getD sd
  | .timed st en => st.instant localOff ≤ (en.getD st).instant localOff

/-- The normalization invariant of spec section 3: start not after end,
and both endpoints stamped with an explicit timezone, which after
normalization is either `pytz.UTC` (all-day branch) or the target
timezone (timed branch). -/
def eventWellFormed (targetOff : Int) (e : ExtractedEvent) : Prop :=
  e.start_time.utc ≤ e.end_time.utc ∧
    (e.start_time.off = utcOffset ∨ e.start_time.off = targetOff) ∧
    (e.end_time.off = utcOffset ∨ e.end_time.off = targetOff)

/-- A well-formed timed occurrence on epoch day 0 (start 00:00 UTC, end
01:00 UTC), summary "Standup", recurring. -/
def sampleTimed : RawEvent :=
  { summary := some "Standup"
    location := none
    rrule := true
    occ := .timed (.aware 0 0) (some (.aware 3600000000 0)) }

/-- The event record `sampleTimed` normalizes to under local offset 0 and
target offset 0. -/
def sampleEvent : ExtractedEvent := mkEvent 0 0 sampleTimed

/-- An all-day occurrence on epoch day 20, beyond an `end_date` of 10. -/
def sampleFar : RawEvent :=
  { summary := none, location := none, rrule := false, occ := .allDay 20 none }

/-- An all-day occurrence whose explicit `DTEND` date (day 3) precedes its
`DTSTART` date (day 5). -/
def sampleBackwards : RawEvent :=
  { summary := some "Backwards", location := none, rrule := false
    occ := .allDay 5 (some 3) }

/-- C1: the claim says a timeout or exception while processing file N
keeps exactly the occurrences already accumulated for that file and never
contributes, duplicates, or removes occurrences of neighbouring files.
The code violates this: `filtered_events` is initialised inside the `try`
(line 105) while `all_events.extend(filtered_events)` (line 157) runs
unconditionally, so a failure that fires between `signal.alarm(5)` and
line 105 re-appends the previous file occurrences — here a two-file run
whose second file fails early duplicates the first file single event —
and the same failure on the very first file crashes the whole run with an
uncaught `NameError`. -/
theorem c1_stale_accumulator_bug :
    extract_recurring_events_ics 0 0 10 [.query [sampleTimed] none, .earlyFail]
        = .ok [sampleEvent, sampleEvent]
      ∧ extract_recurring_events_ics 0 0 10 [.earlyFail] = .error .nameError :=
  ⟨rfl, rfl⟩

/-- C2 counterexample: a run over a malformed first file and a well-formed
second file aborts with the uncaught read/parse exception instead of
skipping the bad file, refuting the claim that a per-file parse failure
never aborts the whole run unless every input file fails. -/
theorem c2_parse_abort_counterexample :
    extract_recurring_events_ics 0 0 10 [.parseFail, .query [sampleTimed] none]
      = .error .parseError := rfl

/-- C2 amended: a file whose read or parse fails (lines 82-86 sit outside
the `try`) aborts the whole run no matter which files remain, while an
exception raised during expansion after a successful parse is caught
per file: the run keeps that file partial results and continues with the
remaining files. -/
theorem c2_parse_vs_expansion_failure (localOff targetOff endDate : Int)
    (fs : List FileModel) (allEvents : List ExtractedEvent)
    (fvar : Option (List ExtractedEvent)) (raws good : List RawEvent) (k : Nat) :
    extractLoop localOff targetOff endDate (.parseFail :: fs) allEvents fvar
        = .error .parseError
      ∧ extract_recurring_events_ics localOff targetOff endDate
            [.query raws (some k), .query good none]
          = .ok (expandLoop localOff targetOff endDate (raws.take k)
              ++ expandLoop localOff targetOff endDate good) := by
  refine ⟨rfl, ?_⟩
  simp [extract_recurring_events_ics, extractLoop, consumedPrefix]

/-- C3: normalization of an all-day raw occurrence yields the start date
at the very beginning of the day and the end date (the start date when no
`DTEND` is present) at the very end of the day, both stamped with UTC;
normalization of a timezone-aware timed occurrence converts start and end
(the end defaulting to the start) into the target timezone, preserving
the instants they denote. -/
theorem c3_normalization (localOff targetOff sd : Int) (ed : Option Int)
    (su so : Int) (en : RawDT) :
    ((normalizeOcc localOff targetOff (.allDay sd ed)).1.dateOf = sd
      ∧ (normalizeOcc localOff targetOff (.allDay sd ed)).1.timeOfDay = timeMin
      ∧ (normalizeOcc localOff targetOff (.allDay sd ed)).1.off = utcOffset
      ∧ (normalizeOcc localOff targetOff (.allDay sd ed)).2.dateOf = ed.getD sd
      ∧ (normalizeOcc localOff targetOff (.allDay sd ed)).2.timeOfDay = timeMax
      ∧ (normalizeOcc localOff targetOff (.allDay sd ed)).2.off = utcOffset)
    ∧ ((normalizeOcc localOff targetOff (.timed (.aware su so) (some en))).1
          = ⟨su, targetOff⟩
      ∧ (normalizeOcc localOff targetOff (.timed (.aware su so) (some en))).2
          = ⟨en.instant localOff, targetOff⟩
      ∧ (normalizeOcc localOff targetOff (.timed (.aware su so) none)).2
          = ⟨su, targetOff⟩) := by
  constructor
  · refine ⟨?_, ?_, rfl, ?_, ?_, rfl⟩ <;>
      simp only [normalizeOcc, TzDatetime.dateOf, TzDatetime.timeOfDay, TzDatetime.wall,
        timeMin, timeMax, usPerDay, utcOffset] <;>
      omega
  · refine ⟨rfl, ?_, rfl⟩
    cases en <;> rfl

/-- C4: an occurrence is routed to the all-day group of the digest if and
only if its start time of day is exactly `time.min` and its end time of
day is exactly `time.max`; with any other start/end combination it is
routed to the timed group.  Routing to the all-day group is expressed as:
consing the occurrence onto the input adds its summarized title to the
all-day renderings and leaves the timed renderings unchanged. -/
theorem c4_allday_iff (gpt : String → Nat → Option String) (e : ExtractedEvent)
    (es : List ExtractedEvent) :
    ((fmtPartition gpt (e :: es)).1
          = summarize_with_gpt gpt e.title 22 :: (fmtPartition gpt es).1
        ∧ (fmtPartition gpt (e :: es)).2 = (fmtPartition gpt es).2)
      ↔ (e.start_time.timeOfDay = timeMin ∧ e.end_time.timeOfDay = timeMax) := by
  constructor
  · intro h
    by_contra hc
    have hne : (fmtPartition gpt (e :: es)).2
        = (strfHM e.start_time ++ " " ++ summarize_with_gpt gpt e.title 16)
            :: (fmtPartition gpt es).2 := by
      simp [fmtPartition, hc]
    rw [hne] at h
    have := congrArg List.length h.2
    simp at this
  · intro hc
    simp [fmtPartition, hc]

/-- C6: while consuming the chronologically ordered expansion sequence,
the first normalized occurrence whose start date exceeds the window end
stops consumption entirely: the accumulated result is exactly the events
of the prefix before it, the out-of-window occurrence itself is excluded,
and the result does not depend on the remainder of the sequence (the
conclusion holds for every `rest`, so no later element is ever
evaluated). -/
theorem c6_early_exit (localOff targetOff endDate : Int) (pre rest : List RawEvent)
    (bad : RawEvent)
    (hpre : ∀ r ∈ pre, (mkEvent localOff targetOff r).start_time.dateOf ≤ endDate)
    (hbad : (mkEvent localOff targetOff bad).start_time.dateOf > endDate) :
    expandLoop localOff targetOff endDate (pre ++ bad :: rest)
      = pre.map (mkEvent localOff targetOff) := by
  induction pre with
  | nil => simp [expandLoop, hbad]
  | cons r rs ih =>
      have hr : ¬ (mkEvent localOff targetOff r).start_time.dateOf > endDate :=
        not_lt.mpr (hpre r (List.mem_cons_self r rs))
      simp only [List.cons_append, expandLoop, hr, if_false, List.map_cons]
      exact congrArg _ (ih (fun x hx => hpre x (List.mem_cons_of_mem _ hx)))

/-- C6 witness: a concrete in-window event, followed by an out-of-window
event, followed by a further event; only the in-window prefix survives. -/
theorem c6_early_exit_witness :
    expandLoop 0 0 10 [sampleTimed, sampleFar, sampleBackwards] = [sampleEvent] := by
  have h := c6_early_exit 0 0 10 [sampleTimed] [sampleBackwards] sampleFar
    (by intro r hr; rcases List.mem_singleton.mp hr with rfl; decide)
    (by decide)
  simpa using h

/-- C7 counterexample: a run whose target-date argument is malformed and
whose single input file is unreadable aborts with the file read/parse
exception, not with the date error — so per-file processing does happen
before the malformed date aborts the run, refuting the claim. -/
theorem c7_counterexample :
    mainScript 0 0 10 [.parseFail] "not-a-date" = .error .parseError := rfl

/-- C7 amended: a malformed target-date argument does abort the run with
an uncaught `ValueError` from `datetime.strptime`, but only after every
input file has been loaded, expanded and filtered: the run result is the
extraction outcome first (any file-scoped abort wins), and the date error
surfaces only when extraction over all files completed. -/
theorem c7_date_error_after_extraction (localOff targetOff endDate : Int)
    (files : List FileModel) (dateStr : String)
    (hbad : parseYMD dateStr = none) :
    mainScript localOff targetOff endDate files dateStr
      = match extract_recurring_events_ics localOff targetOff endDate files with
        | .error e => .error e
        | .ok _ => .error .valueError := by
  unfold mainScript filter_events_by_date
  cases extract_recurring_events_ics localOff targetOff endDate files with
  | error e => rfl
  | ok evs => rw [hbad]

/-- C7 amended witness: with one well-formed empty file and a malformed
date, the run aborts with the date error after extraction finishes. -/
theorem c7_date_error_after_extraction_witness :
    mainScript 0 0 10 [.query [] none] "garbage" = .error .valueError := by
  have h := c7_date_error_after_extraction 0 0 10 [.query [] none] "garbage" rfl
  simpa using h

/-- C9: when the external summarization call fails (the oracle returns
`none`, modelling any raised exception), `summarize_with_gpt` returns the
raw title truncated to at most `maxLength` characters — the error never
propagates to the formatter. -/
theorem c9_summarizer_fallback (gpt : String → Nat → Option String)
    (title : String) (maxLength : Nat)
    (hfail : gpt title maxLength = none) :
    summarize_with_gpt gpt title maxLength = pyTrunc title maxLength
      ∧ (summarize_with_gpt gpt title maxLength).length ≤ maxLength := by
  refine ⟨by simp [summarize_with_gpt, hfail], ?_⟩
  simp only [summarize_with_gpt, hfail, pyTrunc]
  exact List.length_take_le maxLength title.data

/-- C9 witness: a concrete failing oracle call falls back to truncation
within the length bound. -/
theorem c9_summarizer_fallback_witness :
    summarize_with_gpt (fun _ _ => none) "Peninsula Self Defense" 16
        = pyTrunc "Peninsula Self Defense" 16
      ∧ (summarize_with_gpt (fun _ _ => none) "Peninsula Self Defense" 16).length ≤ 16 :=
  c9_summarizer_fallback (fun _ _ => none) "Peninsula Self Defense" 16 rfl

theorem RawDT.astimezone_utc (localOff targetOff : Int) (d : RawDT) :
    (d.astimezone localOff targetOff).utc = d.instant localOff := by
  cases d <;> rfl

theorem RawDT.astimezone_off (localOff targetOff : Int) (d : RawDT) :
    (d.astimezone localOff targetOff).off = targetOff := by
  cases d <;> rfl

theorem mkEvent_wellFormed (localOff targetOff : Int) (r : RawEvent)
    (h : rawOrdered localOff r.occ) :
    eventWellFormed targetOff (mkEvent localOff targetOff r) := by
  rcases r with ⟨s, l, rr, occ⟩
  cases occ with
  | allDay sd ed =>
      simp only [rawOrdered] at h
      refine ⟨?_, Or.inl rfl, Or.inl rfl⟩
      simp only [mkEvent, normalizeOcc, timeMin, timeMax, usPerDay]
      omega
  | timed st en =>
      refine ⟨?_, Or.inr (RawDT.astimezone_off _ _ _), Or.inr (RawDT.astimezone_off _ _ _)⟩
      simp only [rawOrdered] at h
      simp only [mkEvent, normalizeOcc, RawDT.astimezone_utc]
      exact h

theorem expandLoop_wellFormed (localOff targetOff endDate : Int) (raws : List RawEvent)
    (h : ∀ r ∈ raws, rawOrdered localOff r.occ) :
    ∀ e ∈ expandLoop localOff targetOff endDate raws, eventWellFormed targetOff e := by
  induction raws with
  | nil => intro e he; simp [expandLoop] at he
  | cons r rs ih =>
      intro e he
      by_cases hc : (mkEvent localOff targetOff r).start_time.dateOf > endDate
      · simp [expandLoop, hc] at he
      · simp only [expandLoop, hc, if_false] at he
        rcases List.mem_cons.mp he with rfl | he
        · exact mkEvent_wellFormed _ _ _ (h r (List.mem_cons_self r rs))
        · exact ih (fun x hx => h x (List.mem_cons_of_mem _ hx)) e he

theorem extractLoop_wellFormed (localOff targetOff endDate : Int) :
    ∀ (files : List FileModel) (acc : List ExtractedEvent)
      (fvar : Option (List ExtractedEvent)) (res : List ExtractedEvent),
      (∀ raws failAfter, FileModel.query raws failAfter ∈ files →
        ∀ r ∈ raws, rawOrdered localOff r.occ) →
      (∀ e ∈ acc, eventWellFormed targetOff e) →
      (∀ l, fvar = some l → ∀ e ∈ l, eventWellFormed targetOff e) →
      extractLoop localOff targetOff endDate files acc fvar = .ok res →
      ∀ e ∈ res, eventWellFormed targetOff e := by
  intro files
  induction files with
  | nil =>
      intro acc fvar res _ hacc _ hres
      simp only [extractLoop, Except.ok.injEq] at hres
      exact hres ▸ hacc
  | cons f fs ih =>
      intro acc fvar res hq hacc hfv hres
      cases f with
      | parseFail => simp [extractLoop] at hres
      | earlyFail =>
          cases fvar with
          | none => simp [extractLoop] at hres
          | some stale =>
              have hst : ∀ e ∈ stale, eventWellFormed targetOff e := hfv stale rfl
              refine ih (acc ++ stale) (some stale) res ?_ ?_ ?_ ?_
              · exact fun raws fa hm => hq raws fa (List.mem_cons_of_mem _ hm)
              · intro e he
                rcases List.mem_append.mp he with he | he
                · exact hacc e he
                · exact hst e he
              · intro l hl e he
                cases hl
                exact hst e he
              · simpa only [extractLoop] using hres
      | query raws failAfter =>
          have hraws : ∀ r ∈ raws, rawOrdered localOff r.occ :=
            hq raws failAfter (List.mem_cons_self _ _)
          have hnew : ∀ e ∈ expandLoop localOff targetOff endDate
              (consumedPrefix raws failAfter), eventWellFormed targetOff e := by
            apply expandLoop_wellFormed
            intro r hr
            apply hraws
            cases failAfter with
            | some k => exact List.take_subset k raws hr
            | none => exact hr
          refine ih
            (acc ++ expandLoop localOff targetOff endDate (consumedPrefix raws failAfter))
            (some (expandLoop localOff targetOff endDate (consumedPrefix raws failAfter)))
            res ?_ ?_ ?_ ?_
          · exact fun rws fa hm => hq rws fa (List.mem_cons_of_mem _ hm)
          · intro e he
            rcases List.mem_append.mp he with he | he
            · exact hacc e he
            · exact hnew e he
          · intro l hl e he
            cases hl
            exact hnew e he
          · simpa only [extractLoop] using hres

/-- C8 counterexample: a single all-day source event whose explicit end
date precedes its start date flows through the pipeline unchecked, and
the single occurrence in the accumulated result has its normalized end
instant strictly before its normalized start instant, refuting the
claimed start-before-end invariant for arbitrary source event shapes. -/
theorem c8_backwards_counterexample :
    extract_recurring_events_ics 0 0 10 [.query [sampleBackwards] none]
        = .ok [mkEvent 0 0 sampleBackwards]
      ∧ (mkEvent 0 0 sampleBackwards).end_time.utc
          < (mkEvent 0 0 sampleBackwards).start_time.utc :=
  ⟨rfl, by decide⟩

/-- C8 amended: provided every raw occurrence fed to the run has an end
that does not precede its start (which RFC 5545 guarantees for well-formed
calendar data but the code never checks), every occurrence in the
accumulated result satisfies the invariant: normalized start instant at
or before normalized end instant, and both endpoints stamped with an
explicit timezone — `pytz.UTC` for the all-day branch, the target
timezone for the timed branch — regardless of missing ends, date-only
starts, or aware/naive datetimes. -/
theorem c8_normalized_invariant (localOff targetOff endDate : Int)
    (files : List FileModel) (res : List ExtractedEvent)
    (hraws : ∀ raws failAfter, FileModel.query raws failAfter ∈ files →
      ∀ r ∈ raws, rawOrdered localOff r.occ)
    (hres : extract_recurring_events_ics localOff targetOff endDate files = .ok res) :
    ∀ e ∈ res, eventWellFormed targetOff e :=
  extractLoop_wellFormed localOff targetOff endDate files [] none res hraws
    (by intro e he; simp at he) (by intro l hl; cases hl) hres

/-- C8 amended witness: the invariant holds for the event extracted from
a concrete well-formed run. -/
theorem c8_normalized_invariant_witness : eventWellFormed 0 sampleEvent := by
  have h := c8_normalized_invariant 0 0 10 [.query [sampleTimed] none] [sampleEvent]
    (by
      intro raws fa hm r hr
      simp only [List.mem_singleton, FileModel.query.injEq] at hm
      rcases hm with ⟨rfl, rfl⟩
      rcases List.mem_singleton.mp hr with rfl
      show (0 : Int) ≤ 3600000000
      decide)
    rfl
  exact h sampleEvent (List.mem_singleton.mpr rfl)

theorem digitChar_lt_digitChar {a b : Nat} (hb : b < 10) (hab : a < b) :
    Nat.digitChar a < Nat.digitChar b := by
  have h10 : ∀ x y : Fin 10, x < y → Nat.digitChar x.val < Nat.digitChar y.val := by decide
  exact h10 ⟨a, lt_trans hab hb⟩ ⟨b, hb⟩ hab

theorem digitVal_digitChar {a : Nat} (ha : a < 10) : digitVal (Nat.digitChar a) = a := by
  have h10 : ∀ x : Fin 10, digitVal (Nat.digitChar x.val) = x.val := by decide
  exact h10 ⟨a, ha⟩

/-- Two rendered timed entries with zero-padded `HH:MM ` prefixes compare
lexicographically according to their minute-of-day keys whenever the keys
differ, independently of the title suffixes. -/
theorem render_lt_render {h1 m1 h2 m2 : Nat} (t1 t2 : String)
    (hh1 : h1 < 24) (hm1 : m1 < 60) (hh2 : h2 < 24) (hm2 : m2 < 60)
    (hlt : h1 * 60 + m1 < h2 * 60 + m2) :
    (pad2 h1 ++ ":" ++ pad2 m1 ++ " " ++ t1) < (pad2 h2 ++ ":" ++ pad2 m2 ++ " " ++ t2) := by
  rw [String.lt_iff_toList_lt]
  show List.Lex (· < ·)
    (Nat.digitChar (h1 / 10) :: Nat.digitChar (h1 % 10) :: ':' ::
      Nat.digitChar (m1 / 10) :: Nat.digitChar (m1 % 10) :: ' ' :: t1.data)
    (Nat.digitChar (h2 / 10) :: Nat.digitChar (h2 % 10) :: ':' ::
      Nat.digitChar (m2 / 10) :: Nat.digitChar (m2 % 10) :: ' ' :: t2.data)
  rcases (by omega : h1 < h2 ∨ (h1 = h2 ∧ m1 < m2)) with hcase | ⟨heq, hcase⟩
  · rcases (by omega : h1 / 10 < h2 / 10 ∨ (h1 / 10 = h2 / 10 ∧ h1 % 10 < h2 % 10))
      with ha | ⟨ha, hb⟩
    · exact List.Lex.rel (digitChar_lt_digitChar (by omega) ha)
    · rw [ha]
      exact List.Lex.cons (List.Lex.rel (digitChar_lt_digitChar (by omega) hb))
  · rw [heq]
    refine List.Lex.cons (List.Lex.cons (List.Lex.cons ?_))
    rcases (by omega : m1 / 10 < m2 / 10 ∨ (m1 / 10 = m2 / 10 ∧ m1 % 10 < m2 % 10))
      with ha | ⟨ha, hb⟩
    · exact List.Lex.rel (digitChar_lt_digitChar (by omega) ha)
    · rw [ha]
      exact List.Lex.cons (List.Lex.rel (digitChar_lt_digitChar (by omega) hb))

/-- Reading the `HH:MM ` prefix back off a rendered entry recovers the
minute-of-day key. -/
theorem minutesOfRendered_render (h m : Nat) (hh : h < 100) (hm : m < 100) (t : String) :
    minutesOfRendered (pad2 h ++ ":" ++ pad2 m ++ " " ++ t) = h * 60 + m := by
  show (digitVal (Nat.digitChar (h / 10)) * 10 + digitVal (Nat.digitChar (h % 10))) * 60
      + (digitVal (Nat.digitChar (m / 10)) * 10 + digitVal (Nat.digitChar (m % 10)))
    = h * 60 + m
  rw [digitVal_digitChar (by omega), digitVal_digitChar (by omega),
    digitVal_digitChar (by omega), digitVal_digitChar (by omega)]
  omega

theorem timeOfDay_nonneg (t : TzDatetime) : 0 ≤ t.timeOfDay :=
  Int.emod_nonneg _ (by decide)

theorem timeOfDay_lt (t : TzDatetime) : t.timeOfDay < usPerDay :=
  Int.emod_lt_of_pos _ (by decide)

theorem hourOf_lt (t : TzDatetime) : (t.timeOfDay / usPerHour).toNat < 24 := by
  have h1 := timeOfDay_nonneg t
  have h2 := timeOfDay_lt t
  simp only [usPerDay, usPerHour] at *
  omega

theorem minuteOf_lt (t : TzDatetime) : ((t.timeOfDay % usPerHour) / usPerMinute).toNat < 60 := by
  have h1 := timeOfDay_nonneg t
  simp only [usPerHour, usPerMinute] at *
  omega

/-- `minutesOfRendered` inverts the renderer: the key read back off a
rendered timed entry is the minute of day of the start instant. -/
theorem minutesOfRendered_strfHM (t : TzDatetime) (title : String) :
    minutesOfRendered (strfHM t ++ " " ++ title) = startMinutes t :=
  minutesOfRendered_render _ _ (lt_trans (hourOf_lt t) (by omega))
    (lt_trans (minuteOf_lt t) (by omega)) title

/-- Every string in the timed group is a rendered timed entry: the
`HH:MM` prefix of some event start time, a space, and a summarized
title. -/
theorem fmtPartition_timed_shape (gpt : String → Nat → Option String)
    (events : List ExtractedEvent) :
    ∀ s ∈ (fmtPartition gpt events).2, ∃ e : ExtractedEvent,
      s = strfHM e.start_time ++ " " ++ summarize_with_gpt gpt e.title 16 := by
  induction events with
  | nil => intro s hs; simp [fmtPartition] at hs
  | cons e es ih =>
      intro s hs
      by_cases hc : (e.start_time.timeOfDay = timeMin ∧ e.end_time.timeOfDay = timeMax)
      · simp only [fmtPartition, if_pos hc] at hs
        exact ih s hs
      · simp only [fmtPartition, if_neg hc] at hs
        rcases List.mem_cons.mp hs with rfl | hs
        · exact ⟨e, rfl⟩
        · exact ih s hs

/-- C5: sorting the rendered timed entries lexicographically (exactly
what `timed_events.sort()` does) leaves them ordered by the minute-of-day
key encoded in their zero-padded `HH:MM ` prefixes, and that key is the
chronological minute of day of the entry start time — so the digest's
timed section is chronologically ordered solely as a consequence of the
lexicographic sort. -/
theorem c5_lex_sort_chronological (gpt : String → Nat → Option String)
    (events : List ExtractedEvent) :
    List.Pairwise (fun a b => minutesOfRendered a ≤ minutesOfRendered b)
        (((fmtPartition gpt events).2).mergeSort strLeB)
      ∧ ∀ (t : TzDatetime) (title : String),
          minutesOfRendered (strfHM t ++ " " ++ title) = startMinutes t := by
  refine ⟨?_, minutesOfRendered_strfHM⟩
  have htrans : ∀ a b c : String, strLeB a b = true → strLeB b c = true →
      strLeB a c = true := by
    intro a b c hab hbc
    simp only [strLeB, decide_eq_true_eq] at *
    exact le_trans hab hbc
  have htotal : ∀ a b : String, (strLeB a b || strLeB b a) = true := by
    intro a b
    simp only [strLeB, Bool.or_eq_true, decide_eq_true_eq]
    exact le_total a b
  have hsorted := List.sorted_mergeSort htrans htotal ((fmtPartition gpt events).2)
  refine List.Pairwise.imp_of_mem ?_ hsorted
  intro a b ha hb hab
  rcases fmtPartition_timed_shape gpt events a (List.mem_mergeSort.mp ha) with ⟨e1, rfl⟩
  rcases fmtPartition_timed_shape gpt events b (List.mem_mergeSort.mp hb) with ⟨e2, rfl⟩
  rw [minutesOfRendered_strfHM, minutesOfRendered_strfHM]
  by_contra hcon
  push_neg at hcon
  have hblt : strfHM e2.start_time ++ " " ++ summarize_with_gpt gpt e2.title 16
      < strfHM e1.start_time ++ " " ++ summarize_with_gpt gpt e1.title 16 :=
    render_lt_render _ _ (hourOf_lt e2.start_time) (minuteOf_lt e2.start_time)
      (hourOf_lt e1.start_time) (minuteOf_lt e1.start_time) hcon
  exact absurd (of_decide_eq_true hab) (not_le.mpr hblt)

theorem strAppendEmpty (s : String) : s ++ "" = s := by
  cases s with
  | mk l => exact congrArg String.mk (List.append_nil l)

/-- C10: on an empty occurrence list and a well-formed `YYYY-MM-DD`
filter date, the digest is exactly the upper-cased header line
`"--- <MONTH DD> ---"` followed by a single newline and nothing else:
`"\n".join` of no entries contributes nothing. -/
theorem c10_empty_digest (gpt : String → Nat → Option String) (dateStr : String)
    (y m d : Nat) (hparse : parseYMD dateStr = some (y, m, d)) :
    format_events_for_text_file gpt [] dateStr
      = some ("--- " ++ pyUpper (monthName m ++ " " ++ pad2 d) ++ " ---\n") := by
  simp only [format_events_for_text_file, hparse, fmtPartition, List.mergeSort_nil,
    List.append_nil]
  have hnil : String.intercalate "\n" ([] : List String) = "" := rfl
  rw [hnil, strAppendEmpty]

/-- C10 witness: the empty digest for 2025-10-12. -/
theorem c10_empty_digest_witness :
    format_events_for_text_file (fun _ _ => none) [] "2025-10-12"
      = some "--- OCTOBER 12 ---\n" := by
  have h := c10_empty_digest (fun _ _ => none) "2025-10-12" 2025 10 12 (by decide)
  rw [h]
  decide
